import Mathlib

/-!
Verification of the go-milter protocol library against its specification.

The Go sources are shallowly embedded: Go byte slices and strings become
`List Nat` (each element a byte value), fallible operations return `Option`
or an explicit outcome type, and the network connection becomes a pair of an
input byte stream and a written-packet trace.  Machine integers are modelled
as `Nat`; the only place overflow matters is the big-endian `u32` frame
length, handled with explicit bounds.
-/

namespace Milter

/-- A Go byte slice / string: a list of byte values. -/
abbrev Bytes := List Nat

/-! ## C-string codec (cstrings.go) -/

/-- Go `strings.TrimLeft(s, "\x00")`. -/
def trimNulLeft (l : Bytes) : Bytes := l.dropWhile (· = 0)

/-- Go `strings.Trim(s, "\x00")`: NUL bytes removed from both ends. -/
def trimNul (l : Bytes) : Bytes :=
  ((trimNulLeft l).reverse.dropWhile (· = 0)).reverse

/-- Go `strings.Split(s, "\x00")` / `bytes.Split(s, []byte{0})`: the list of
segments between NUL separators; the split of the empty string is `[[]]`. -/
def splitNul : Bytes → List Bytes
  | [] => [[]]
  | b :: rest =>
    if b = 0 then [] :: splitNul rest
    else (b :: (splitNul rest).headI) :: (splitNul rest).tail

/-- `decodeCStrings` (cstrings.go): nil for empty input, otherwise trim NULs
from both ends and split on NUL. -/
def decodeCStrings (data : Bytes) : List Bytes :=
  if data = [] then [] else splitNul (trimNul data)

/-- `readCString` (cstrings.go): the bytes up to the first NUL, or all of the
input if it has none. -/
def readCString (data : Bytes) : Bytes := data.takeWhile (· ≠ 0)

/-- `appendCString` (cstrings.go): append the string and a single NUL. -/
def appendCString (dest : Bytes) (s : Bytes) : Bytes := dest ++ s ++ [0]

/-- The encoder the spec calls `encodeCStrings`: `appendCString` applied to
each element in order. -/
def encodeCStrings (ss : List Bytes) : Bytes := ss.foldl appendCString []

/-- The NUL-separated join of a list of strings (no trailing NUL). -/
def icNul : List Bytes → Bytes
  | [] => []
  | [s] => s
  | s :: t :: ss => s ++ 0 :: icNul (t :: ss)

/-! ## Message vocabulary (message.go) -/

/-- A milter packet: code byte plus payload. -/
structure Message where
  code : Nat
  data : Bytes
deriving DecidableEq, Repr

def codeOptNeg : Nat := 79
def codeMacro : Nat := 68
def codeConn : Nat := 67
def codeQuit : Nat := 81
def codeHelo : Nat := 72
def codeMail : Nat := 77
def codeRcpt : Nat := 82
def codeHeader : Nat := 76
def codeEOH : Nat := 78
def codeBody : Nat := 66
def codeEOB : Nat := 69
def codeAbort : Nat := 65
def codeData : Nat := 84

def actAccept : Nat := 97
def actContinue : Nat := 99
def actDiscard : Nat := 100
def actReject : Nat := 114
def actTempFail : Nat := 116
def actReplyCode : Nat := 121
def actSkip : Nat := 115

/-- The `p` progress code skipped by the client's read loops. -/
def actProgress : Nat := 112

def actAddRcpt : Nat := 43
def actDelRcpt : Nat := 45
def actReplBody : Nat := 98
def actAddHeader : Nat := 104
def actChangeHeader : Nat := 109
def actInsertHeader : Nat := 105
def actChangeFrom : Nat := 101
def actQuarantine : Nat := 113

def maxBodyChunk : Nat := 65535

/-- Protocol version offered by the client (`clientProtocolVersion = 2`). -/
def clientProtocolVersion : Nat := 2

/-! Option bits (OptAction and OptProtocol masks). -/

def optAddHeader : Nat := 1
def optChangeBody : Nat := 2
def optAddRcpt : Nat := 4
def optRemoveRcpt : Nat := 8
def optChangeHeader : Nat := 16
def optQuarantine : Nat := 32
def optChangeFrom : Nat := 64

def optNoConnect : Nat := 1
def optNoHelo : Nat := 2
def optNoMailFrom : Nat := 4
def optNoRcptTo : Nat := 8
def optNoBody : Nat := 16
def optNoHeaders : Nat := 32
def optNoEOH : Nat := 64
def optNoHeaderReply : Nat := 128
def optNoConnReply : Nat := 4096
def optNoHeloReply : Nat := 8192
def optNoMailReply : Nat := 16384
def optNoRcptReply : Nat := 32768
def optNoEOHReply : Nat := 262144
def optNoBodyReply : Nat := 524288

/-! ## Frame codec (readPacket / writePacket) -/

/-- Big-endian u32 of the first four bytes of a list. -/
def be32 : Bytes → Nat
  | a :: b :: c :: d :: _ => ((a * 256 + b) * 256 + c) * 256 + d
  | _ => 0

/-- Big-endian 4-byte encoding of a u32 value. -/
def be32enc (n : Nat) : Bytes :=
  [n / 16777216 % 256, n / 65536 % 256, n / 256 % 256, n % 256]

/-- Result of reading one frame.  `crash` models the Go runtime panic raised
by `data[0]` when the frame length prefix is zero (the slice is empty). -/
inductive ReadRes where
  | ok (msg : Message) (rest : Bytes)
  | ioError
  | crash
deriving DecidableEq, Repr

/-- `readPacket`: read a big-endian u32 length, then exactly `length` bytes;
the first byte is the code, the remainder the payload.  Fewer than 4 bytes,
or fewer than `length` bytes after them, is an IO error (`binary.Read` /
`io.ReadFull` fail); a zero length makes the Go code index an empty slice. -/
def readPacket (input : Bytes) : ReadRes :=
  if input.length < 4 then .ioError
  else if (input.drop 4).length < be32 input then .ioError
  else
    match (input.drop 4).take (be32 input) with
    | [] => .crash
    | c :: d => .ok ⟨c, d⟩ ((input.drop 4).drop (be32 input))

/-- `writePacket` framing: u32 length (= 1 + payload size), code, payload. -/
def encodePacket (msg : Message) : Bytes :=
  be32enc (msg.data.length + 1) ++ msg.code :: msg.data

/-- The transport, seen from the client: remaining input bytes plus the trace
of packets written so far (writes are modelled as always succeeding). -/
structure Conn where
  input : Bytes
  written : List Message
deriving DecidableEq, Repr

def writeMsg (c : Conn) (m : Message) : Conn :=
  { c with written := c.written ++ [m] }

/-! ## Client session (ClientSession, latest variant) -/

/-- Client session state: negotiated masks and the abort-required flag. -/
structure ClientSession where
  actionOpts : Nat
  protocolOpts : Nat
  needAbort : Bool
deriving DecidableEq, Repr

/-- Error classes of the spec's taxonomy for client operations. -/
inductive ClientErr where
  | ioError
  | protocolError
  | negotiationErr
  | usageError
deriving DecidableEq, Repr

/-- Result of a client operation: a value, an error, or a Go panic. -/
inductive Outcome (α : Type) where
  | ok (a : α)
  | err (e : ClientErr)
  | crash
deriving DecidableEq, Repr

/-- A terminal action parsed from a milter reply. -/
structure Action where
  code : Nat
  smtpCode : Int := 0
  smtpText : Bytes := []
deriving DecidableEq, Repr

/-- Digit accumulator for `strconv.Atoi` on an unsigned digit string. -/
def natDigits (bs : Bytes) : Option Nat :=
  if bs = [] then none
  else
    bs.foldl
      (fun acc b =>
        match acc with
        | some n => if 48 ≤ b ∧ b ≤ 57 then some (10 * n + (b - 48)) else none
        | none => none)
      (some 0)

/-- Go `strconv.Atoi` on a short byte string: optional sign, then digits. -/
def goAtoi (bs : Bytes) : Option Int :=
  match bs with
  | 43 :: rest => (natDigits rest).map Int.ofNat
  | 45 :: rest => (natDigits rest).map fun n => -(Int.ofNat n)
  | _ => (natDigits bs).map Int.ofNat

/-- `parseAction`: accepts `a c d r t` with no payload constraint, parses the
SMTP code and text for `y`, and rejects every other code — including the v6
`s` (skip) code, which has no case here. -/
def parseAction (msg : Message) : Option Action :=
  if msg.code = actAccept ∨ msg.code = actContinue ∨ msg.code = actDiscard ∨
      msg.code = actReject ∨ msg.code = actTempFail then
    some { code := msg.code }
  else if msg.code = actReplyCode then
    if msg.data.length ≤ 4 then none
    else
      match goAtoi (msg.data.take 3) with
      | none => none
      | some n =>
        some { code := msg.code, smtpCode := n,
               smtpText := readCString (msg.data.drop 4) }
  else none

/-- `readAction`: loop reading packets, skipping progress (`p`) frames; on the
first non-progress frame, clear `needAbort` unless the code is `continue`,
then parse it as a terminal action. -/
def readAction (s : ClientSession) (c : Conn) :
    Outcome (Action × ClientSession) × Conn :=
  match h : readPacket c.input with
  | .ioError => (.err .ioError, c)
  | .crash => (.crash, c)
  | .ok msg rest =>
    let c' : Conn := { c with input := rest }
    if msg.code = actProgress then readAction s c'
    else
      let s' := if msg.code ≠ actContinue then { s with needAbort := false } else s
      match parseAction msg with
      | none => (.err .protocolError, c')
      | some act => (.ok (act, s'), c')
termination_by c.input.length
decreasing_by
  simp only [readPacket] at h
  split at h
  · exact absurd h (by simp)
  · split at h
    · exact absurd h (by simp)
    · split at h
      · exact absurd h (by simp)
      · rename_i hlen4 hbody heq
        simp only [ReadRes.ok.injEq] at h
        obtain ⟨-, hrest⟩ := h
        simp only [← hrest, List.length_drop]
        omega

/-- A parsed modify action (streamed by the milter before the end-of-body
terminal action). -/
structure ModifyAction where
  code : Nat
  rcpt : Bytes := []
  fromAddr : Bytes := []
  fromArgs : List Bytes := []
  body : Bytes := []
  headerIndex : Nat := 0
  headerName : Bytes := []
  headerValue : Bytes := []
  reason : Bytes := []
deriving DecidableEq, Repr

/-- The shared tail of the `m`/`i`/`h` cases of `parseModifyAct` (after the
`fallthrough`): header name up to the first NUL, value after it; an input
with no NUL delimiter is an error.  (The Go check `nul == len(msg.Data)` can
never fire, since `bytes.IndexByte` returns an index below the length.) -/
def parseHeaderMA (code idx : Nat) (data : Bytes) : Option ModifyAction :=
  match data.findIdx? (· = 0) with
  | none => none
  | some nul =>
    some { code := code, headerIndex := idx, headerName := readCString data,
           headerValue := readCString (data.drop (nul + 1)) }

/-- `parseModifyAct`: decode one modify-action packet by code. -/
def parseModifyAct (msg : Message) : Option ModifyAction :=
  if msg.code = actAddRcpt ∨ msg.code = actDelRcpt then
    some { code := msg.code, rcpt := readCString msg.data }
  else if msg.code = actQuarantine then
    some { code := msg.code, reason := readCString msg.data }
  else if msg.code = actReplBody then
    some { code := msg.code, body := msg.data }
  else if msg.code = actChangeFrom then
    some { code := msg.code, fromAddr := (splitNul msg.data).headI,
           fromArgs := (splitNul msg.data).tail }
  else if msg.code = actChangeHeader ∨ msg.code = actInsertHeader then
    if msg.data.length < 4 then none
    else parseHeaderMA msg.code (be32 msg.data) (msg.data.drop 4)
  else if msg.code = actAddHeader then
    parseHeaderMA msg.code 0 msg.data
  else none

/-- Whether a code is dispatched to `parseModifyAct` by `readModifyActs`. -/
def isModifyActCode (b : Nat) : Bool :=
  b = actAddRcpt ∨ b = actDelRcpt ∨ b = actReplBody ∨ b = actChangeHeader ∨
    b = actInsertHeader ∨ b = actAddHeader ∨ b = actChangeFrom ∨ b = actQuarantine

/-- `readModifyActs`: loop skipping progress frames, collecting modify-action
packets, until a packet with any other code arrives; that packet is parsed as
the terminal action.  The session state is returned untouched: the Go method
never assigns `needAbort`. -/
def readModifyActs (s : ClientSession) (acc : List ModifyAction) (c : Conn) :
    Outcome ((List ModifyAction × Action) × ClientSession) × Conn :=
  match h : readPacket c.input with
  | .ioError => (.err .ioError, c)
  | .crash => (.crash, c)
  | .ok msg rest =>
    let c' : Conn := { c with input := rest }
    if msg.code = actProgress then readModifyActs s acc c'
    else if isModifyActCode msg.code then
      match parseModifyAct msg with
      | none => (.err .protocolError, c')
      | some ma => readModifyActs s (acc ++ [ma]) c'
    else
      match parseAction msg with
      | none => (.err .protocolError, c')
      | some act => (.ok ((acc, act), s), c')
termination_by c.input.length
decreasing_by
  all_goals
    simp only [readPacket] at h
    split at h
    · exact absurd h (by simp)
    · split at h
      · exact absurd h (by simp)
      · split at h
        · exact absurd h (by simp)
        · simp only [ReadRes.ok.injEq] at h
          obtain ⟨-, hrest⟩ := h
          simp only [← hrest, List.length_drop]
          omega

/-- `ClientSession.BodyChunk`: synthesize `continue` when body messages are
suppressed, reject over-large chunks, otherwise write one `B` packet and (if
body replies are expected) read the milter's action. -/
def bodyChunk (s : ClientSession) (chunk : Bytes) (c : Conn) :
    Outcome (Action × ClientSession) × Conn :=
  if s.protocolOpts &&& optNoBody ≠ 0 then (.ok ({ code := actContinue }, s), c)
  else if chunk.length > maxBodyChunk then (.err .usageError, c)
  else
    let c1 := writeMsg c ⟨codeBody, chunk⟩
    if s.protocolOpts &&& optNoBodyReply = 0 then readAction s c1
    else (.ok ({ code := actContinue }, s), c1)

/-- `ClientSession.End`: write the end-of-body packet and drain modify
actions until the terminal action. -/
def sessionEnd (s : ClientSession) (c : Conn) :
    Outcome ((List ModifyAction × Action) × ClientSession) × Conn :=
  readModifyActs s [] (writeMsg c ⟨codeEOB, []⟩)

/-- `ClientSession.BodyReadFrom`: feed the reader's content through
`bodyChunk` in pieces of at most `maxBodyChunk` bytes.  The reader is the
usual in-memory one whose `Read` fills the 65535-byte buffer as far as the
remaining content allows and reports end-of-stream when the content is
exhausted.  A `skip` action stops the chunking but still runs `sessionEnd`;
any other non-`continue` action is returned at once without it. -/
def bodyReadFrom (s : ClientSession) (content : Bytes) (c : Conn) :
    Outcome ((List ModifyAction × Action) × ClientSession) × Conn :=
  if hc : content = [] then sessionEnd s c
  else
    match bodyChunk s (content.take maxBodyChunk) c with
    | (.ok (act, s'), c') =>
      if act.code = actSkip then sessionEnd s' c'
      else if act.code ≠ actContinue then (.ok (([], act), s'), c')
      else bodyReadFrom s' (content.drop maxBodyChunk) c'
    | (.err e, c') => (.err e, c')
    | (.crash, c') => (.crash, c')
termination_by content.length
decreasing_by
  simp only [List.length_drop, maxBodyChunk]
  have : content.length ≠ 0 := fun h0 => hc (List.eq_nil_of_length_eq_zero h0)
  omega

/-- `ClientSession.Close`: an abort packet first when `needAbort` is set,
then the quit packet, then the transport is closed (the returned flag). -/
def closeSession (s : ClientSession) (c : Conn) : Conn × Bool :=
  let c1 := if s.needAbort then writeMsg c ⟨codeAbort, []⟩ else c
  (writeMsg c1 ⟨codeQuit, []⟩, true)

/-- The OPTNEG payload: version, action mask, protocol mask, big-endian. -/
def optnegPayload (v a p : Nat) : Bytes := be32enc v ++ be32enc a ++ be32enc p

/-- `ClientSession.negotiate` (latest variant): send the OPTNEG packet, read
the reply, verify code, size and version — and adopt the milter's masks
verbatim as the session's effective masks, setting `needAbort`. -/
def negotiate (actionMask protoMask : Nat) (c : Conn) :
    Outcome ClientSession × Conn :=
  let c0 := writeMsg c ⟨codeOptNeg, optnegPayload clientProtocolVersion actionMask protoMask⟩
  match readPacket c0.input with
  | .ioError => (.err .ioError, c0)
  | .crash => (.crash, c0)
  | .ok msg rest =>
    let c1 : Conn := { c0 with input := rest }
    if msg.code ≠ codeOptNeg then (.err .protocolError, c1)
    else if msg.data.length < 12 then (.err .protocolError, c1)
    else if be32 (msg.data.take 4) < clientProtocolVersion then (.err .negotiationErr, c1)
    else
      (.ok { actionOpts := be32 ((msg.data.drop 4).take 4),
             protocolOpts := be32 ((msg.data.drop 8).take 4),
             needAbort := true }, c1)

/-- The earlier `negotiate` variant, which ANDs each received mask with the
one the client offered before storing it. -/
def negotiateEarlier (actionMask protoMask : Nat) (c : Conn) :
    Outcome ClientSession × Conn :=
  let c0 := writeMsg c ⟨codeOptNeg, optnegPayload clientProtocolVersion actionMask protoMask⟩
  match readPacket c0.input with
  | .ioError => (.err .ioError, c0)
  | .crash => (.crash, c0)
  | .ok msg rest =>
    let c1 : Conn := { c0 with input := rest }
    if msg.code ≠ codeOptNeg then (.err .protocolError, c1)
    else if msg.data.length < 12 then (.err .protocolError, c1)
    else if be32 (msg.data.take 4) < clientProtocolVersion then (.err .negotiationErr, c1)
    else
      (.ok { actionOpts := actionMask &&& be32 ((msg.data.drop 4).take 4),
             protocolOpts := protoMask &&& be32 ((msg.data.drop 8).take 4),
             needAbort := true }, c1)

/-! ## Server session (milterSession) -/

/-- Whether a byte may appear in a MIME header field name
(net/textproto's token table). -/
def validHeaderFieldByte (b : Nat) : Bool :=
  b = 33 ∨ b = 35 ∨ b = 36 ∨ b = 37 ∨ b = 38 ∨ b = 39 ∨ b = 42 ∨ b = 43 ∨
    b = 45 ∨ b = 46 ∨ (48 ≤ b ∧ b ≤ 57) ∨ (65 ≤ b ∧ b ≤ 90) ∨ b = 94 ∨
    b = 95 ∨ b = 96 ∨ (97 ≤ b ∧ b ≤ 122) ∨ b = 124 ∨ b = 126

/-- Case-mapping walk of net/textproto's `CanonicalMIMEHeaderKey`: upper-case
the byte after the start and after each hyphen, lower-case the rest. -/
def canonicalKeyAux : Bool → Bytes → Bytes
  | _, [] => []
  | upper, b :: rest =>
    let b' := if upper ∧ 97 ≤ b ∧ b ≤ 122 then b - 32
              else if ¬ upper ∧ 65 ≤ b ∧ b ≤ 90 then b + 32
              else b
    b' :: canonicalKeyAux (b' = 45) rest

/-- `CanonicalMIMEHeaderKey`: canonicalize unless the key has a byte that is
not a valid header field byte, in which case it is returned unchanged. -/
def canonicalMIMEHeaderKey (k : Bytes) : Bytes :=
  if k.all validHeaderFieldByte then canonicalKeyAux true k else k

/-- net/textproto's `MIMEHeader`, as an association list from canonical keys
to the values added under them, in insertion order. -/
abbrev MIMEHeader := List (Bytes × List Bytes)

/-- `MIMEHeader.Add`: canonicalize the key and append the value. -/
def mimeAdd (h : MIMEHeader) (key value : Bytes) : MIMEHeader :=
  let k := canonicalMIMEHeaderKey key
  if h.any fun e => e.1 = k then
    h.map fun e => if e.1 = k then (e.1, e.2 ++ [value]) else e
  else h ++ [(k, [value])]

/-- `MIMEHeader.Values`: the values stored under the canonicalized key. -/
def mimeValues (h : MIMEHeader) (key : Bytes) : List Bytes :=
  (((h.find? fun e => e.1 = canonicalMIMEHeaderKey key).map Prod.snd).getD [])

/-- Per-message server session state touched by the claims: the macro map
(as an association list) and the accumulated headers. -/
structure MilterSession where
  macros : List (Bytes × Bytes)
  headers : MIMEHeader
deriving DecidableEq, Repr

/-- The modifier handed to handler callbacks: it carries the session's
current macro map and header collection. -/
structure Modifier where
  macros : List (Bytes × Bytes)
  headers : MIMEHeader
deriving DecidableEq, Repr

/-- `newModifier`: snapshot of the session's message state. -/
def newModifier (m : MilterSession) : Modifier := ⟨m.macros, m.headers⟩

/-- The `CodeHeader` arm of `milterSession.Process`: decode the payload as
C strings; a single decoded string (the `name\0\0` empty-value form, whose
empty value the trailing-NUL trim dropped) gets an empty value appended; with
exactly two strings the header is added to the collection and the `Header`
callback is invoked with them (returned here as the optional pair); any other
shape falls through without a callback. -/
def processHeader (m : MilterSession) (payload : Bytes) :
    MilterSession × Option (Bytes × Bytes) :=
  let headerData := decodeCStrings payload
  let headerData := if headerData.length = 1 then headerData ++ [[]] else headerData
  match headerData with
  | [n, v] => ({ m with headers := mimeAdd m.headers n v }, some (n, v))
  | _ => (m, none)

/-- The `CodeEOH` arm: the header collection handed to the end-of-headers
(`Headers`) callback. -/
def processEOH (m : MilterSession) : MIMEHeader := m.headers

/-- The `CodeAbort` arm: the `Abort` callback runs on a modifier built from
the still-populated session (the resets of `headers` and `macros` sit in a
`defer`, so they run only after the callback returns), then both fields are
cleared; no response packet is produced for an abort. -/
def processAbort (m : MilterSession) : MilterSession × Modifier × Option Message :=
  ({ m with headers := [], macros := [] }, newModifier m, none)

/-! ## C-string codec lemmas -/

theorem encodeCStrings_foldl (ss : List Bytes) (a : Bytes) :
    ss.foldl appendCString a = a ++ ss.foldl appendCString [] := by
  induction ss generalizing a with
  | nil => simp
  | cons s ts ih =>
    simp only [List.foldl_cons]
    rw [ih, ih (appendCString [] s)]
    simp [appendCString]

theorem encodeCStrings_cons (s : Bytes) (ss : List Bytes) :
    encodeCStrings (s :: ss) = s ++ [0] ++ encodeCStrings ss := by
  unfold encodeCStrings
  simp only [List.foldl_cons]
  rw [encodeCStrings_foldl]
  simp [appendCString]

theorem encodeCStrings_eq_icNul (ss : List Bytes) (h : ss ≠ []) :
    encodeCStrings ss = icNul ss ++ [0] := by
  induction ss with
  | nil => exact absurd rfl h
  | cons s ts ih =>
    cases ts with
    | nil => simp [encodeCStrings, appendCString, icNul]
    | cons t ts2 =>
      rw [encodeCStrings_cons, ih (by simp), icNul]
      simp

theorem splitNul_zero_free (s : Bytes) (h : (0 : Nat) ∉ s) : splitNul s = [s] := by
  induction s with
  | nil => rfl
  | cons b t ih =>
    have hb : ¬ (b = 0) := fun e => h (e ▸ List.mem_cons_self b t)
    have ht : (0 : Nat) ∉ t := fun hm => h (List.mem_cons_of_mem _ hm)
    simp [splitNul, hb, ih ht]

theorem splitNul_append (s t : Bytes) (h : (0 : Nat) ∉ s) :
    splitNul (s ++ 0 :: t) = s :: splitNul t := by
  induction s with
  | nil => simp [splitNul]
  | cons b u ih =>
    have hb : ¬ (b = 0) := fun e => h (e ▸ List.mem_cons_self b u)
    have hu : (0 : Nat) ∉ u := fun hm => h (List.mem_cons_of_mem _ hm)
    simp [splitNul, hb, ih hu]

theorem splitNul_icNul (ss : List Bytes) (h : ∀ s ∈ ss, (0 : Nat) ∉ s)
    (hne : ss ≠ []) : splitNul (icNul ss) = ss := by
  induction ss with
  | nil => exact absurd rfl hne
  | cons s ts ih =>
    cases ts with
    | nil => simpa [icNul] using splitNul_zero_free s (h s (by simp))
    | cons t ts2 =>
      rw [icNul, splitNul_append _ _ (h s (by simp))]
      rw [ih (fun x hx => h x (by simp [hx])) (by simp)]

theorem icNul_reverse_structure (ss : List Bytes)
    (h : ∀ s ∈ ss, s ≠ [] ∧ (0 : Nat) ∉ s) (hne : ss ≠ []) :
    ∃ b m, (icNul ss).reverse = b :: m ∧ b ≠ 0 := by
  induction ss with
  | nil => exact absurd rfl hne
  | cons s ts ih =>
    cases ts with
    | nil =>
      obtain ⟨hs, h0⟩ := h s (by simp)
      cases hr : s.reverse with
      | nil => exact absurd (by simpa using congrArg List.reverse hr) hs
      | cons b m =>
        have hb : b ∈ s := by
          rw [← List.mem_reverse, hr]; exact List.mem_cons_self b m
        exact ⟨b, m, by simpa [icNul] using hr, fun e => h0 (e ▸ hb)⟩
    | cons t ts2 =>
      obtain ⟨b, m, hbm, hb⟩ := ih (fun x hx => h x (by simp [hx])) (by simp)
      refine ⟨b, m ++ 0 :: s.reverse, ?_, hb⟩
      rw [icNul]
      simp [hbm]

theorem icNul_head_structure (ss : List Bytes)
    (h : ∀ s ∈ ss, s ≠ [] ∧ (0 : Nat) ∉ s) (hne : ss ≠ []) :
    ∃ a t, icNul ss = a :: t ∧ a ≠ 0 := by
  cases ss with
  | nil => exact absurd rfl hne
  | cons s ts =>
    obtain ⟨hs, h0⟩ := h s (by simp)
    cases hsv : s with
    | nil => exact absurd hsv hs
    | cons a u =>
      have ha : a ≠ 0 := fun e => h0 (by simp [hsv, e])
      cases ts with
      | nil => exact ⟨a, u, by simp [icNul, hsv], ha⟩
      | cons t ts2 => exact ⟨a, u ++ 0 :: icNul (t :: ts2), by simp [icNul, hsv], ha⟩

theorem decode_icNul_append_zero (ss : List Bytes)
    (h : ∀ s ∈ ss, s ≠ [] ∧ (0 : Nat) ∉ s) (hne : ss ≠ []) :
    decodeCStrings (icNul ss ++ [0]) = ss := by
  obtain ⟨a, t, hat, ha⟩ := icNul_head_structure ss h hne
  obtain ⟨b, m, hbm, hb⟩ := icNul_reverse_structure ss h hne
  unfold decodeCStrings
  rw [if_neg (by simp)]
  have h1 : trimNulLeft (icNul ss ++ [0]) = icNul ss ++ [0] := by
    rw [hat]
    simp [trimNulLeft, List.dropWhile_cons, ha]
  have h2 : trimNul (icNul ss ++ [0]) = icNul ss := by
    unfold trimNul
    rw [h1, List.reverse_append]
    simp only [List.reverse_cons, List.reverse_nil, List.nil_append, List.singleton_append]
    rw [hbm, List.dropWhile_cons, if_pos (by simp), List.dropWhile_cons,
      if_neg (by simp [hb]), ← hbm, List.reverse_reverse]
  rw [h2, splitNul_icNul ss (fun s hs => (h s hs).2) hne]

theorem decode_name_two_nuls (name : Bytes) (hne : name ≠ []) (h0 : (0 : Nat) ∉ name) :
    decodeCStrings (name ++ [0, 0]) = [name] := by
  have h1 : trimNulLeft (name ++ [0, 0]) = name ++ [0, 0] := by
    cases hv : name with
    | nil => exact absurd hv hne
    | cons a t =>
      have ha : ¬ (a = 0) := fun e => h0 (by simp [hv, e])
      simp [trimNulLeft, List.dropWhile_cons, ha]
  have h2 : List.dropWhile (fun x => decide (x = 0)) name.reverse = name.reverse := by
    cases hr : name.reverse with
    | nil => simp
    | cons b m =>
      have hb : ¬ (b = 0) := fun e => h0 (by
        rw [← List.mem_reverse, hr, e]; exact List.mem_cons_self 0 m)
      simp [List.dropWhile_cons, hb]
  unfold decodeCStrings
  rw [if_neg (by simp)]
  have h3 : trimNul (name ++ [0, 0]) = name := by
    unfold trimNul
    rw [h1]
    have hrev : (name ++ [0, 0]).reverse = 0 :: 0 :: name.reverse := by simp
    rw [hrev, List.dropWhile_cons, if_pos (by simp), List.dropWhile_cons, if_pos (by simp),
      h2, List.reverse_reverse]
  rw [h3, splitNul_zero_free name h0]

/-! ## Claim C5 -/

/-- Claim C5 (amended): decoding the concatenation of the NUL-terminated
encodings of `ss` yields `ss` again, provided every element of `ss` is
nonempty as well as NUL-free (the trailing-NUL trim folds empty first or
last elements away otherwise); decoding the empty byte sequence yields the
empty sequence. -/
theorem decodeCStrings_encodeCStrings (ss : List Bytes)
    (h : ∀ s ∈ ss, s ≠ [] ∧ (0 : Nat) ∉ s) :
    decodeCStrings (encodeCStrings ss) = ss ∧ decodeCStrings [] = [] := by
  refine ⟨?_, rfl⟩
  cases hss : ss with
  | nil => rfl
  | cons s ts =>
    rw [← hss, encodeCStrings_eq_icNul ss (by simp [hss]),
      decode_icNul_append_zero ss h (by simp [hss])]

/-- Claim C5, counterexample to the claim as stated: the two-element sequence
of empty strings is NUL-free, but its encoding `00 00` decodes to the
one-element sequence holding the empty string. -/
theorem decodeCStrings_encodeCStrings_cex :
    (0 : Nat) ∉ ([] : Bytes) ∧
      decodeCStrings (encodeCStrings [[], []]) = [[]] ∧
      decodeCStrings (encodeCStrings [[], []]) ≠ [[], []] := by decide

theorem decodeCStrings_encodeCStrings_witness :
    (∀ s ∈ ([[49], [50]] : List Bytes), s ≠ [] ∧ (0 : Nat) ∉ s) ∧
      (decodeCStrings (encodeCStrings [[49], [50]]) = [[49], [50]] ∧
        decodeCStrings [] = []) :=
  ⟨by decide, decodeCStrings_encodeCStrings [[49], [50]] (by decide)⟩

/-! ## Claim C6 -/

/-- Claim C6: a header packet whose payload is a name followed by two NULs
makes the server synthesize an empty value: the Header callback is invoked
with that name and the empty string, and the header collection afterwards —
the one the end-of-headers callback receives — holds exactly the one mapping
from that name to the one-element list of the empty string. -/
theorem processHeader_empty_value (mac : List (Bytes × Bytes)) (name : Bytes)
    (hne : name ≠ []) (h0 : (0 : Nat) ∉ name) :
    processHeader ⟨mac, []⟩ (name ++ [0, 0]) =
      (⟨mac, [(canonicalMIMEHeaderKey name, [[]])]⟩, some (name, [])) ∧
    mimeValues (processEOH ⟨mac, [(canonicalMIMEHeaderKey name, [[]])]⟩) name = [[]] := by
  constructor
  · unfold processHeader
    rw [decode_name_two_nuls name hne h0]
    simp [mimeAdd]
  · simp [processEOH, mimeValues]

theorem processHeader_empty_value_witness :
    ([84, 111] : Bytes) ≠ [] ∧ (0 : Nat) ∉ ([84, 111] : Bytes) ∧
      (processHeader ⟨[], []⟩ ([84, 111] ++ [0, 0]) =
          (⟨[], [(canonicalMIMEHeaderKey [84, 111], [[]])]⟩, some ([84, 111], [])) ∧
        mimeValues (processEOH ⟨[], [(canonicalMIMEHeaderKey [84, 111], [[]])]⟩)
            [84, 111] = [[]]) :=
  ⟨by decide, by decide, processHeader_empty_value [] [84, 111] (by decide) (by decide)⟩

/-! ## Claim C10 -/

/-- Claim C10: the Abort arm hands the callback a modifier carrying the macro
map and headers exactly as they were before the abort (the resets are
deferred past the callback), empties both fields afterwards, and produces no
reply packet. -/
theorem processAbort_spec (m : MilterSession) :
    processAbort m = (⟨[], []⟩, ⟨m.macros, m.headers⟩, none) := by
  cases m
  rfl

/-! ## Claim C8 -/

/-- Claim C8: Close writes an abort packet followed by a quit packet when the
abort flag is set and only the quit packet otherwise, and in both cases
closes the transport (the boolean component). -/
theorem closeSession_spec (s : ClientSession) (c : Conn) :
    closeSession s c =
      (⟨c.input, c.written ++ (if s.needAbort then [⟨codeAbort, []⟩, ⟨codeQuit, []⟩]
          else [⟨codeQuit, []⟩])⟩, true) := by
  cases c
  cases hn : s.needAbort <;> simp [closeSession, writeMsg, hn]

/-! ## Claim C2 -/

/-- Claim C2 (code bug): the frame reader fails with an IO error on inputs
shorter than the length prefix promises, as claimed — but a frame whose
length prefix is zero makes the Go code index element 0 of an empty slice, a
runtime panic (`crash`), not the ProtocolError the spec promises. -/
theorem readPacket_zero_length :
    readPacket [0, 0, 0, 0] = .crash ∧ readPacket [0, 0, 0] = .ioError ∧
      readPacket [0, 0, 0, 2, 99] = .ioError ∧
      readPacket [0, 0, 0, 1, 99] = .ok ⟨99, []⟩ [] := by decide

/-! ## Frame codec lemmas -/

theorem be32_be32enc (n : Nat) (r : Bytes) (h : n < 4294967296) :
    be32 (be32enc n ++ r) = n := by
  simp only [be32enc, List.cons_append, List.nil_append, be32]
  omega

theorem readPacket_encodePacket (msg : Message) (rest : Bytes)
    (h : msg.data.length + 1 < 4294967296) :
    readPacket (encodePacket msg ++ rest) = .ok msg rest := by
  have hlen4 : (be32enc (msg.data.length + 1)).length = 4 := by simp [be32enc]
  have hin : encodePacket msg ++ rest
      = be32enc (msg.data.length + 1) ++ (msg.code :: (msg.data ++ rest)) := by
    simp [encodePacket]
  have hbe : be32 (be32enc (msg.data.length + 1) ++ (msg.code :: (msg.data ++ rest)))
      = msg.data.length + 1 := be32_be32enc _ _ h
  have hdrop : (be32enc (msg.data.length + 1) ++ (msg.code :: (msg.data ++ rest))).drop 4
      = msg.code :: (msg.data ++ rest) := by
    rw [← hlen4, List.drop_left]
  have htake : (msg.code :: (msg.data ++ rest)).take (msg.data.length + 1)
      = msg.code :: msg.data := by
    rw [List.take_cons (by omega)]
    simp only [Nat.add_sub_cancel]
    rw [List.take_left]
  have hdrop2 : (msg.code :: (msg.data ++ rest)).drop (msg.data.length + 1) = rest := by
    rw [List.drop_succ_cons, List.drop_left]
  unfold readPacket
  rw [hin, hdrop, hbe, htake, hdrop2]
  rw [if_neg (by simp [be32enc])]
  rw [if_neg (by simp)]

theorem land_absorb_left (x y : Nat) : (x &&& y) &&& x = x &&& y := by
  apply Nat.eq_of_testBit_eq
  intro i
  simp only [Nat.testBit_land]
  cases x.testBit i <;> cases y.testBit i <;> rfl

theorem land_absorb_right (x y : Nat) : (x &&& y) &&& y = x &&& y := by
  apply Nat.eq_of_testBit_eq
  intro i
  simp only [Nat.testBit_land]
  cases x.testBit i <;> cases y.testBit i <;> rfl

/-! ## Claim C1 -/

/-- Claim C1, counterexample to the claim as stated: the client offers action
mask 0 and the milter replies with action mask 1; the current negotiate
adopts the milter's mask 1 verbatim, which differs from the AND (0) and is
not a bitwise subset of the client's offer. -/
theorem negotiate_cex :
    negotiate 0 0 ⟨[0, 0, 0, 13, 79, 0, 0, 0, 2, 0, 0, 0, 1, 0, 0, 0, 0], []⟩ =
      (.ok ⟨1, 0, true⟩,
        ⟨[], [⟨codeOptNeg, optnegPayload clientProtocolVersion 0 0⟩]⟩) ∧
    (1 : Nat) ≠ 0 &&& 1 ∧ (1 : Nat) &&& 0 ≠ 1 := by decide

/-- Claim C1 (amended): after a successful negotiation the current client
code stores the masks from the milter's reply verbatim, so the effective
masks need not be bitwise subsets of the client's own offer; the
AND-of-both-sides behaviour, with the subset property for both offers, is
what the earlier negotiate variant computes. -/
theorem negotiate_masks (a b ma mp v : Nat) (rest : Bytes) (w : List Message)
    (hv2 : clientProtocolVersion ≤ v) (hv : v < 4294967296)
    (hma : ma < 4294967296) (hmp : mp < 4294967296) :
    negotiate a b ⟨encodePacket ⟨codeOptNeg, optnegPayload v ma mp⟩ ++ rest, w⟩ =
      (.ok ⟨ma, mp, true⟩,
        ⟨rest, w ++ [⟨codeOptNeg, optnegPayload clientProtocolVersion a b⟩]⟩) ∧
    negotiateEarlier a b ⟨encodePacket ⟨codeOptNeg, optnegPayload v ma mp⟩ ++ rest, w⟩ =
      (.ok ⟨a &&& ma, b &&& mp, true⟩,
        ⟨rest, w ++ [⟨codeOptNeg, optnegPayload clientProtocolVersion a b⟩]⟩) ∧
    (a &&& ma) &&& a = a &&& ma ∧ (a &&& ma) &&& ma = a &&& ma ∧
    (b &&& mp) &&& b = b &&& mp ∧ (b &&& mp) &&& mp = b &&& mp := by
  have hrp : readPacket (encodePacket ⟨codeOptNeg, optnegPayload v ma mp⟩ ++ rest)
      = .ok ⟨codeOptNeg, optnegPayload v ma mp⟩ rest :=
    readPacket_encodePacket _ _ (by simp [optnegPayload, be32enc])
  have hp1 : (optnegPayload v ma mp).take 4 = be32enc v := by
    simp [optnegPayload, be32enc, List.take]
  have hp2 : ((optnegPayload v ma mp).drop 4).take 4 = be32enc ma := by
    simp [optnegPayload, be32enc, List.drop, List.take]
  have hp3 : ((optnegPayload v ma mp).drop 8).take 4 = be32enc mp := by
    simp [optnegPayload, be32enc, List.drop, List.take]
  have hbev : be32 (be32enc v) = v := by
    simpa using be32_be32enc v [] hv
  have hbema : be32 (be32enc ma) = ma := by
    simpa using be32_be32enc ma [] hma
  have hbemp : be32 (be32enc mp) = mp := by
    simpa using be32_be32enc mp [] hmp
  refine ⟨?_, ?_, land_absorb_left a ma, land_absorb_right a ma,
    land_absorb_left b mp, land_absorb_right b mp⟩
  · unfold negotiate
    simp only [writeMsg]
    rw [hrp]
    dsimp only
    rw [if_neg (by simp [codeOptNeg])]
    rw [if_neg (by simp [optnegPayload, be32enc])]
    rw [hp1, hbev]
    rw [if_neg (by omega)]
    rw [hp2, hp3, hbema, hbemp]
  · unfold negotiateEarlier
    simp only [writeMsg]
    rw [hrp]
    dsimp only
    rw [if_neg (by simp [codeOptNeg])]
    rw [if_neg (by simp [optnegPayload, be32enc])]
    rw [hp1, hbev]
    rw [if_neg (by omega)]
    rw [hp2, hp3, hbema, hbemp]

theorem negotiate_masks_witness :
    clientProtocolVersion ≤ 2 ∧ (2 : Nat) < 4294967296 ∧ (1 : Nat) < 4294967296 ∧
      (4 : Nat) < 4294967296 ∧
      (negotiate 3 5 ⟨encodePacket ⟨codeOptNeg, optnegPayload 2 1 4⟩ ++ [], []⟩ =
          (.ok ⟨1, 4, true⟩,
            ⟨[], [⟨codeOptNeg, optnegPayload clientProtocolVersion 3 5⟩]⟩) ∧
        negotiateEarlier 3 5 ⟨encodePacket ⟨codeOptNeg, optnegPayload 2 1 4⟩ ++ [], []⟩ =
          (.ok ⟨3 &&& 1, 5 &&& 4, true⟩,
            ⟨[], [⟨codeOptNeg, optnegPayload clientProtocolVersion 3 5⟩]⟩) ∧
        (3 &&& 1) &&& 3 = 3 &&& 1 ∧ (3 &&& 1) &&& 1 = 3 &&& 1 ∧
        (5 &&& 4) &&& 5 = 5 &&& 4 ∧ (5 &&& 4) &&& 4 = 5 &&& 4) :=
  ⟨by decide, by decide, by decide, by decide,
    negotiate_masks 3 5 1 4 2 [] [] (by decide) (by decide) (by decide) (by decide)⟩

/-! ## Client loop lemmas -/

theorem parseAction_code (msg : Message) (act : Action)
    (h : parseAction msg = some act) : act.code = msg.code := by
  unfold parseAction at h
  split at h
  · obtain rfl := Option.some.inj h; rfl
  · split at h
    · split at h
      · exact absurd h (by simp)
      · split at h
        · exact absurd h (by simp)
        · obtain rfl := Option.some.inj h; rfl
    · exact absurd h (by simp)

theorem readAction_written (s : ClientSession) (c : Conn) :
    ((readAction s c).2).written = c.written := by
  induction c using readAction.induct s with
  | case1 c h => rw [readAction, h]
  | case2 c h => rw [readAction, h]
  | case3 c msg rest h c' hp ih =>
    rw [readAction, h]
    dsimp only
    rw [if_pos hp]
    simpa using ih
  | case4 c msg rest h hp hpa => rw [readAction, h]; simp [hp, hpa]
  | case5 c msg rest h hp act hpa => rw [readAction, h]; simp [hp, hpa]

theorem readAction_needAbort (s : ClientSession) (c : Conn) :
    ∀ act s2 c2, readAction s c = (.ok (act, s2), c2) →
      s2.needAbort = if act.code = actContinue then s.needAbort else false := by
  induction c using readAction.induct s with
  | case1 c h =>
    intro act s2 c2 he
    rw [readAction, h] at he
    exact absurd he (by simp)
  | case2 c h =>
    intro act s2 c2 he
    rw [readAction, h] at he
    exact absurd he (by simp)
  | case3 c msg rest h c' hp ih =>
    intro act s2 c2 he
    rw [readAction, h] at he
    dsimp only at he
    rw [if_pos hp] at he
    exact ih act s2 c2 he
  | case4 c msg rest h hp hpa =>
    intro act s2 c2 he
    rw [readAction, h] at he
    dsimp only at he
    rw [if_neg hp, hpa] at he
    exact absurd he (by simp)
  | case5 c msg rest h hp act0 hpa =>
    intro act s2 c2 he
    rw [readAction, h] at he
    dsimp only at he
    rw [if_neg hp, hpa] at he
    have hcode := parseAction_code msg act0 hpa
    simp only [Prod.mk.injEq, Outcome.ok.injEq] at he
    obtain ⟨⟨rfl, rfl⟩, rfl⟩ := he
    by_cases hcont : msg.code = actContinue
    · simp [hcont, hcode]
    · simp [hcont, hcode]

theorem readModifyActs_state (s : ClientSession) (acc : List ModifyAction) (c : Conn) :
    ∀ r s2 c2, readModifyActs s acc c = (.ok (r, s2), c2) → s2 = s := by
  induction acc, c using readModifyActs.induct s with
  | case1 acc c h =>
    intro r s2 c2 he
    rw [readModifyActs, h] at he
    exact absurd he (by simp)
  | case2 acc c h =>
    intro r s2 c2 he
    rw [readModifyActs, h] at he
    exact absurd he (by simp)
  | case3 acc c msg rest h c' hp ih =>
    intro r s2 c2 he
    rw [readModifyActs, h] at he
    dsimp only at he
    rw [if_pos hp] at he
    exact ih r s2 c2 he
  | case4 acc c msg rest h hp hm hpm =>
    intro r s2 c2 he
    rw [readModifyActs, h] at he
    dsimp only at he
    rw [if_neg hp, if_pos hm, hpm] at he
    exact absurd he (by simp)
  | case5 acc c msg rest h c' hp hm ma hpm ih =>
    intro r s2 c2 he
    rw [readModifyActs, h] at he
    dsimp only at he
    rw [if_neg hp, if_pos hm, hpm] at he
    dsimp only at he
    exact ih r s2 c2 he
  | case6 acc c msg rest h hp hm hpa =>
    intro r s2 c2 he
    rw [readModifyActs, h] at he
    dsimp only at he
    rw [if_neg hp, if_neg hm, hpa] at he
    exact absurd he (by simp)
  | case7 acc c msg rest h hp hm act hpa =>
    intro r s2 c2 he
    rw [readModifyActs, h] at he
    dsimp only at he
    rw [if_neg hp, if_neg hm, hpa] at he
    simp only [Prod.mk.injEq, Outcome.ok.injEq] at he
    exact he.1.2.symm

theorem negotiate_sets_needAbort (a b : Nat) (c : Conn) (st : ClientSession)
    (c2 : Conn) (h : negotiate a b c = (.ok st, c2)) : st.needAbort = true := by
  unfold negotiate at h
  dsimp only at h
  split at h
  · exact absurd h (by simp)
  · exact absurd h (by simp)
  · split at h
    · exact absurd h (by simp)
    · split at h
      · exact absurd h (by simp)
      · split at h
        · exact absurd h (by simp)
        · simp only [Prod.mk.injEq, Outcome.ok.injEq] at h
          rw [← h.1]

/-! ## Claim C4 -/

/-- Claim C4, counterexample to the claim as stated: with the abort flag set,
`sessionEnd` (the End drain, `readModifyActs`) consumes an `accept` terminal
action, yet the returned session still carries `needAbort = true` — the
drain loop never clears the flag. -/
theorem needAbort_end_cex :
    sessionEnd ⟨0, 0, true⟩ ⟨[0, 0, 0, 1, 97], []⟩ =
      (.ok (([], { code := 97 }), ⟨0, 0, true⟩), ⟨[], [⟨codeEOB, []⟩]⟩) ∧
    (97 : Nat) ≠ actContinue ∧ (⟨0, 0, true⟩ : ClientSession).needAbort = true := by
  refine ⟨?_, by decide, rfl⟩
  unfold sessionEnd
  rw [readModifyActs]
  decide

/-- Claim C4 (amended): the abort-required flag is set to true by every
successful negotiation; a terminal action received by `readAction` clears it
exactly when its code is not `continue` (progress frames and continue leave
it untouched); but the session state — the flag included — is returned
unchanged by the End-side drain `readModifyActs`, whatever terminal action
it consumes. -/
theorem needAbort_lifecycle :
    (∀ a b (c : Conn) st c2, negotiate a b c = (.ok st, c2) → st.needAbort = true) ∧
    (∀ s (c : Conn) act s2 c2, readAction s c = (.ok (act, s2), c2) →
      s2.needAbort = if act.code = actContinue then s.needAbort else false) ∧
    (∀ s acc (c : Conn) r s2 c2,
      readModifyActs s acc c = (.ok (r, s2), c2) → s2 = s) :=
  ⟨fun a b c st c2 h => negotiate_sets_needAbort a b c st c2 h,
   fun s c act s2 c2 h => readAction_needAbort s c act s2 c2 h,
   fun s acc c r s2 c2 h => readModifyActs_state s acc c r s2 c2 h⟩

theorem needAbort_lifecycle_witness :
    (⟨0, 0, false⟩ : ClientSession).needAbort =
      if (97 : Nat) = actContinue then (⟨0, 0, true⟩ : ClientSession).needAbort
      else false :=
  needAbort_lifecycle.2.1 ⟨0, 0, true⟩ ⟨[0, 0, 0, 1, 97], []⟩ { code := 97 }
    ⟨0, 0, false⟩ ⟨[], []⟩ (by rw [readAction]; decide)

/-! ## Claim C9 -/

/-- Claim C9: in `bodyChunk` the reply-suppression check precedes the size
check — with the no-body bit set, any chunk (however large) yields a
synthetic continue action, no error, and nothing written. -/
theorem bodyChunk_suppressed (s : ClientSession) (chunk : Bytes) (c : Conn)
    (h : s.protocolOpts &&& optNoBody ≠ 0) :
    bodyChunk s chunk c = (.ok ({ code := actContinue }, s), c) := by
  unfold bodyChunk
  rw [if_pos h]

theorem bodyChunk_suppressed_witness :
    ((16 : Nat) &&& optNoBody ≠ 0) ∧ 65535 < (List.replicate 65536 0).length ∧
      bodyChunk ⟨0, 16, true⟩ (List.replicate 65536 0) ⟨[], []⟩ =
        (.ok ({ code := actContinue }, ⟨0, 16, true⟩), ⟨[], []⟩) :=
  ⟨by decide, by simp only [List.length_replicate]; omega,
    bodyChunk_suppressed ⟨0, 16, true⟩ (List.replicate 65536 0) ⟨[], []⟩ (by decide)⟩

/-! ## Claim C3 -/

/-- Claim C3, counterexample to the claim as stated: a 65536-byte chunk sent
while the no-body bit is set does not fail with a usage error — the
suppression check runs first and returns a synthetic continue, writing
nothing. -/
theorem bodyChunk_oversize_cex :
    bodyChunk ⟨0, 16, true⟩ (List.replicate 65536 0) ⟨[], []⟩ =
      (.ok ({ code := actContinue }, ⟨0, 16, true⟩), ⟨[], []⟩) ∧
    65535 < (List.replicate 65536 0).length := by
  constructor
  · unfold bodyChunk
    rw [if_pos (by decide)]
  · simp only [List.length_replicate]
    omega

/-- Claim C3 (amended): when body messages are not suppressed, a chunk larger
than 65535 bytes fails with a usage error and writes nothing, and a chunk of
at most 65535 bytes results in exactly one `B` packet carrying that chunk
being appended to the transport's written trace. -/
theorem bodyChunk_size_spec (s : ClientSession) (chunk : Bytes) (c : Conn)
    (h : s.protocolOpts &&& optNoBody = 0) :
    (maxBodyChunk < chunk.length → bodyChunk s chunk c = (.err .usageError, c)) ∧
    (chunk.length ≤ maxBodyChunk →
      ((bodyChunk s chunk c).2).written = c.written ++ [⟨codeBody, chunk⟩]) := by
  constructor
  · intro hbig
    unfold bodyChunk
    rw [if_neg (by simp [h]), if_pos hbig]
  · intro hsmall
    unfold bodyChunk
    rw [if_neg (by simp [h]), if_neg (by omega)]
    by_cases hr : s.protocolOpts &&& optNoBodyReply = 0
    · rw [if_pos hr, readAction_written]
      simp [writeMsg]
    · rw [if_neg hr]
      simp [writeMsg]

theorem bodyChunk_size_spec_witness :
    ((0 : Nat) &&& optNoBody = 0) ∧
      ((maxBodyChunk < ([65] : Bytes).length →
          bodyChunk ⟨0, 0, true⟩ [65] ⟨[0, 0, 0, 1, 99], []⟩ =
            (.err .usageError, ⟨[0, 0, 0, 1, 99], []⟩)) ∧
        (([65] : Bytes).length ≤ maxBodyChunk →
          ((bodyChunk ⟨0, 0, true⟩ [65] ⟨[0, 0, 0, 1, 99], []⟩).2).written =
            [] ++ [⟨codeBody, [65]⟩])) :=
  ⟨by decide, bodyChunk_size_spec ⟨0, 0, true⟩ [65] ⟨[0, 0, 0, 1, 99], []⟩ (by decide)⟩

/-! ## Claim C7 -/

/-- Claim C7 (code bug at the skip branch): `parseAction` has no case for the
`s` (skip) code, so a milter that answers a body chunk with `skip` makes
`bodyChunk` fail with a protocol error, which `bodyReadFrom` returns at once:
the End message is never sent (the written trace holds only the one `B`
packet, no end-of-body packet), even though `bodyReadFrom` has an explicit —
unreachable — branch meant to stop chunking and still run `sessionEnd`. -/
theorem bodyReadFrom_skip_reply :
    bodyReadFrom ⟨0, 0, true⟩ [65] ⟨[0, 0, 0, 1, 115], []⟩ =
      (.err .protocolError, ⟨[], [⟨codeBody, [65]⟩]⟩) ∧
    parseAction ⟨actSkip, []⟩ = none ∧ isModifyActCode actSkip = false ∧
    (⟨codeEOB, []⟩ : Message) ∉ ([⟨codeBody, [65]⟩] : List Message) := by
  have hbc : bodyChunk ⟨0, 0, true⟩ [65] ⟨[0, 0, 0, 1, 115], []⟩ =
      (.err .protocolError, ⟨[], [⟨codeBody, [65]⟩]⟩) := by
    unfold bodyChunk
    rw [if_neg (by decide), if_neg (by decide), if_pos (by decide)]
    rw [readAction]
    decide
  refine ⟨?_, by decide, by decide, by decide⟩
  rw [bodyReadFrom]
  rw [dif_neg (by decide)]
  rw [show List.take maxBodyChunk [65] = [65] from rfl, hbc]

end Milter
